import Mathlib

/-!
Verification of the ingestion/retrieval core of the Codojo repository.

The development shallowly embeds the TypeScript sources:
  - `src/src/lib/github.ts` (retry/backoff executor, commit ingestion
    pipeline, repository snapshot loader, file embedding pipeline), and
  - `src/src/app/(protected)/dashboard/page.tsx` (vector retrieval engine
    and the RAG answering stream).

External capabilities (the GitHub API, the generative model, the embedding
model, the database) are modelled as explicit oracle parameters; machine
timing (setTimeout waits) is recorded as data in the produced traces.
-/

namespace Codojo

/-- The precomputed backoff delay table of the Retry/Backoff Executor,
`const RETRY_DELAYS = [1000, 2000, 4000, 8000]` (github.ts line 132). -/
def RETRY_DELAYS : List Nat := [1000, 2000, 4000, 8000]

/-- Outcome of a single attempt of a remote operation: a returned value, or a
thrown error carrying an HTTP-like status code (`error?.status`). -/
inductive Attempt (T : Type) where
  | ok (v : T)
  | err (status : Nat)
deriving DecidableEq

/-- Observable trace of one run of the Retry/Backoff Executor: the final
outcome (value returned or error propagated), the sequence of waits performed
between consecutive attempts, and the total number of attempts made. -/
structure RunTrace (T : Type) where
  result : Attempt T
  delays : List Nat
  attempts : Nat
deriving DecidableEq

/-- Shallow embedding of `withRetry` (github.ts lines 145-159).  The operation
`fn` is indexed by the invocation count, so an oracle can make distinct
attempts behave differently (e.g. rate-limited twice, then succeed); the
initial call passes `retryCount = 0` exactly as the TypeScript default does.
On an error with status 429 and `retryCount < RETRY_DELAYS.length` the
executor waits `RETRY_DELAYS[retryCount]` and recurses with `retryCount + 1`;
any other error propagates at once. -/
def withRetry {T : Type} (fn : Nat → Attempt T) (retryCount : Nat) : RunTrace T :=
  match fn retryCount with
  | .ok v => ⟨.ok v, [], 1⟩
  | .err status =>
    if hc : status = 429 ∧ retryCount < RETRY_DELAYS.length then
      let rest := withRetry fn (retryCount + 1)
      ⟨rest.result, RETRY_DELAYS.get ⟨retryCount, hc.2⟩ :: rest.delays, rest.attempts + 1⟩
    else
      ⟨.err status, [], 1⟩
termination_by RETRY_DELAYS.length - retryCount
decreasing_by simp [RETRY_DELAYS] at *; omega

theorem withRetry_of_ok {T : Type} (fn : Nat → Attempt T) (r : Nat) (v : T)
    (h : fn r = .ok v) : withRetry fn r = ⟨.ok v, [], 1⟩ := by
  rw [withRetry, h]

theorem withRetry_of_err_fast {T : Type} (fn : Nat → Attempt T) (r : Nat) (s : Nat)
    (h : fn r = .err s) (hs : ¬(s = 429 ∧ r < RETRY_DELAYS.length)) :
    withRetry fn r = ⟨.err s, [], 1⟩ := by
  rw [withRetry, h]
  simp [hs]

theorem withRetry_of_err_retry {T : Type} (fn : Nat → Attempt T) (r : Nat)
    (h : fn r = .err 429) (hr : r < RETRY_DELAYS.length) :
    withRetry fn r =
      ⟨(withRetry fn (r + 1)).result,
       RETRY_DELAYS.get ⟨r, hr⟩ :: (withRetry fn (r + 1)).delays,
       (withRetry fn (r + 1)).attempts + 1⟩ := by
  rw [withRetry, h]
  simp [hr]

/-- C1: for every operation, if every attempt fails rate-limited (status 429)
the executor makes exactly 5 attempts (4 retries), waiting 1000ms, 2000ms,
4000ms, 8000ms between consecutive attempts, and propagates the last error;
an error that is not rate-limited propagates immediately with no further
attempt; a successful attempt returns its value. -/
theorem claim_C1_withRetry_policy {T : Type} (fn : Nat → Attempt T) :
    ((∀ n, fn n = .err 429) →
        withRetry fn 0 = ⟨.err 429, [1000, 2000, 4000, 8000], 5⟩)
    ∧ (∀ r s, fn r = .err s → s ≠ 429 → withRetry fn r = ⟨.err s, [], 1⟩)
    ∧ (∀ r v, fn r = .ok v → withRetry fn r = ⟨.ok v, [], 1⟩) := by
  refine ⟨?_, ?_, ?_⟩
  · intro hall
    have h4 : withRetry fn 4 = ⟨.err 429, [], 1⟩ :=
      withRetry_of_err_fast fn 4 429 (hall 4) (by simp [RETRY_DELAYS])
    have h3 : withRetry fn 3 = ⟨.err 429, [8000], 2⟩ := by
      rw [withRetry_of_err_retry fn 3 (hall 3) (by simp [RETRY_DELAYS]), h4]
      rfl
    have h2 : withRetry fn 2 = ⟨.err 429, [4000, 8000], 3⟩ := by
      rw [withRetry_of_err_retry fn 2 (hall 2) (by simp [RETRY_DELAYS]), h3]
      rfl
    have h1 : withRetry fn 1 = ⟨.err 429, [2000, 4000, 8000], 4⟩ := by
      rw [withRetry_of_err_retry fn 1 (hall 1) (by simp [RETRY_DELAYS]), h2]
      rfl
    rw [withRetry_of_err_retry fn 0 (hall 0) (by simp [RETRY_DELAYS]), h1]
    rfl
  · intro r s h hs
    exact withRetry_of_err_fast fn r s h (fun hc => hs hc.1)
  · intro r v h
    exact withRetry_of_ok fn r v h

/-- Witness for C1: a concrete operation that always fails with status 429
is attempted exactly 5 times with the waits 1000, 2000, 4000, 8000. -/
theorem claim_C1_witness :
    withRetry (fun _ => (Attempt.err 429 : Attempt Unit)) 0 =
      ⟨.err 429, [1000, 2000, 4000, 8000], 5⟩ :=
  (claim_C1_withRetry_policy (fun _ => (Attempt.err 429 : Attempt Unit))).1
    (fun _ => rfl)

/-- A commit as produced by the repository-listing capability — the `Response`
type of github.ts (lines 136-142). -/
structure CommitInfo where
  commitHash : String
  commitMessage : String
  commitAuthorName : String
  commitAuthorAvatar : String
  commitDate : String
deriving DecidableEq

/-- A persisted `db.commit` row (the `CommitRecord` of the data model). -/
structure CommitRow where
  projectId : String
  commitHash : String
  commitMessage : String
  commitAuthorName : String
  commitAuthorAvatar : String
  commitDate : String
  summary : String
deriving DecidableEq

/-- External behaviours seen by the commit pipeline: the diff fetch
(`axios.get` of `githubUrl/commit/hash.diff`) and the summarizer
(`aiSummarizeCommit`), both indexed by commit hash and by the attempt number
so that repeated attempts may behave differently. -/
structure CommitOracles where
  fetchDiff : String → Nat → Attempt String
  summarize : String → Nat → String → Attempt String

/-- One execution of the try-block body inside `summariesCommit`
(github.ts lines 163-188): a failed diff fetch, an empty diff (the
`"No diff data received"` throw) and a failed summarizer call are all caught
by the inner catch and replaced with `"Error generating summary"`; a falsy
(empty) summary is replaced with `"No summary available"`. -/
def summariesCommitBody (fetch : Attempt String) (sumz : String → Attempt String) : String :=
  match fetch with
  | .err _ => "Error generating summary"
  | .ok data =>
    if data = "" then "Error generating summary"
    else
      match sumz data with
      | .err _ => "Error generating summary"
      | .ok summary => if summary = "" then "No summary available" else summary

/-- Shallow embedding of `summariesCommit` (github.ts lines 162-189): the
inner try/catch body, wrapped in `withRetry` starting at retry count 0. -/
def summariesCommit (env : CommitOracles) (hash : String) : RunTrace String :=
  withRetry
    (fun n => .ok (summariesCommitBody (env.fetchDiff hash n) (env.summarize hash n))) 0

/-- The summary the pipeline obtains for a commit hash: the body evaluated at
attempt 0 (its only attempt, since the body never throws). -/
def commitSummary (env : CommitOracles) (hash : String) : String :=
  summariesCommitBody (env.fetchDiff hash 0) (env.summarize hash 0)

/-- The task submitted to the concurrency limiter for one commit inside
`pollCommits` (github.ts lines 209-225): on success, the commit paired with
its summary; the catch branch yields `null` (`none`). -/
def processCommitTask (env : CommitOracles) (c : CommitInfo) : Option (CommitInfo × String) :=
  match (summariesCommit env c.commitHash).result with
  | .ok s => some (c, s)
  | .err _ => none

/-- `db.commit.findMany({ where: { projectId } })` over the modelled store. -/
def findCommitsByProject (db : List CommitRow) (projectId : String) : List CommitRow :=
  db.filter (fun r => r.projectId = projectId)

/-- The commit hashes already persisted for a project. -/
def projectHashes (db : List CommitRow) (projectId : String) : List String :=
  (findCommitsByProject db projectId).map (fun r => r.commitHash)

/-- Shallow embedding of `filterUnprocessedCommits` (github.ts lines 320-335):
set difference of the listed commits against the already persisted hashes. -/
def filterUnprocessedCommits (db : List CommitRow) (projectId : String)
    (commitHashes : List CommitInfo) : List CommitInfo :=
  commitHashes.filter (fun c => c.commitHash ∉ projectHashes db projectId)

/-- The row `db.commit.create` persists for one summarized commit
(github.ts lines 244-254). -/
def mkCommitRow (projectId : String) (c : CommitInfo) (summary : String) : CommitRow :=
  ⟨projectId, c.commitHash, c.commitMessage, c.commitAuthorName,
   c.commitAuthorAvatar, c.commitDate, summary⟩

/-- Shallow embedding of `pollCommits` (github.ts lines 191-271).  The
upstream listing (the sorted output of `getCommitHashes`) is a parameter;
the store is passed explicitly and the function returns (created rows, new
store).  Batching (size 3 with a 500ms pause) only sequences the inserts, so
the final store is the old store with every valid summary row appended. -/
def pollCommits (env : CommitOracles) (projectId : String) (db0 : List CommitRow)
    (listing : List CommitInfo) : List CommitRow × List CommitRow :=
  let unprocessed := filterUnprocessedCommits db0 projectId listing
  if unprocessed.length = 0 then ([], db0)
  else
    let summaryResponses := unprocessed.map (processCommitTask env)
    let validSummaries := summaryResponses.filterMap id
    let results := validSummaries.map (fun cs => mkCommitRow projectId cs.1 cs.2)
    (results, db0 ++ results)

theorem summariesCommit_result (env : CommitOracles) (hash : String) :
    summariesCommit env hash = ⟨.ok (commitSummary env hash), [], 1⟩ :=
  withRetry_of_ok _ 0 _ rfl

theorem processCommitTask_eq (env : CommitOracles) (c : CommitInfo) :
    processCommitTask env c = some (c, commitSummary env c.commitHash) := by
  unfold processCommitTask
  rw [summariesCommit_result]

theorem pollCommits_eq (env : CommitOracles) (p : String) (db0 : List CommitRow)
    (listing : List CommitInfo) :
    pollCommits env p db0 listing =
      ((filterUnprocessedCommits db0 p listing).map
         (fun c => mkCommitRow p c (commitSummary env c.commitHash)),
       db0 ++ (filterUnprocessedCommits db0 p listing).map
         (fun c => mkCommitRow p c (commitSummary env c.commitHash))) := by
  unfold pollCommits
  by_cases h : (filterUnprocessedCommits db0 p listing).length = 0
  · have he : filterUnprocessedCommits db0 p listing = [] := List.length_eq_zero.mp h
    simp [he]
  · have hmap : (filterUnprocessedCommits db0 p listing).map (processCommitTask env) =
        (filterUnprocessedCommits db0 p listing).map
          (fun c => some (c, commitSummary env c.commitHash)) :=
      List.map_congr_left (fun c _ => processCommitTask_eq env c)
    simp only [h, if_false, hmap, List.filterMap_map]
    have hfm : (id ∘ fun c : CommitInfo => some (c, commitSummary env c.commitHash)) =
        some ∘ (fun c : CommitInfo => (c, commitSummary env c.commitHash)) := rfl
    rw [hfm, List.filterMap_eq_map, List.map_map]
    rfl

theorem pollCommits_state (env : CommitOracles) (p : String) (db0 : List CommitRow)
    (listing : List CommitInfo) :
    (pollCommits env p db0 listing).2 =
      db0 ++ (filterUnprocessedCommits db0 p listing).map
        (fun c => mkCommitRow p c (commitSummary env c.commitHash)) := by
  rw [pollCommits_eq]

theorem pollCommits_rows (env : CommitOracles) (p : String) (db0 : List CommitRow)
    (listing : List CommitInfo) :
    (pollCommits env p db0 listing).1 =
      (filterUnprocessedCommits db0 p listing).map
        (fun c => mkCommitRow p c (commitSummary env c.commitHash)) := by
  rw [pollCommits_eq]

theorem findCommitsByProject_append (db1 db2 : List CommitRow) (p : String) :
    findCommitsByProject (db1 ++ db2) p =
      findCommitsByProject db1 p ++ findCommitsByProject db2 p := by
  unfold findCommitsByProject
  exact List.filter_append _ _

theorem projectHashes_append (db1 db2 : List CommitRow) (p : String) :
    projectHashes (db1 ++ db2) p = projectHashes db1 p ++ projectHashes db2 p := by
  unfold projectHashes
  rw [findCommitsByProject_append, List.map_append]

theorem projectHashes_rows (p : String) (u : List CommitInfo) (f : CommitInfo → String) :
    projectHashes (u.map (fun c => mkCommitRow p c (f c))) p =
      u.map (fun c => c.commitHash) := by
  unfold projectHashes findCommitsByProject
  have hkeep : (u.map (fun c => mkCommitRow p c (f c))).filter
      (fun r => decide (r.projectId = p)) = u.map (fun c => mkCommitRow p c (f c)) := by
    rw [List.filter_eq_self]
    intro r hr
    obtain ⟨c, _, rfl⟩ := List.mem_map.mp hr
    simp [mkCommitRow]
  rw [hkeep, List.map_map]
  rfl

theorem mem_filterUnprocessed (db : List CommitRow) (p : String)
    (listing : List CommitInfo) (c : CommitInfo) :
    c ∈ filterUnprocessedCommits db p listing ↔
      c ∈ listing ∧ c.commitHash ∉ projectHashes db p := by
  unfold filterUnprocessedCommits
  simp [List.mem_filter]

theorem filterUnprocessed_after_poll (env : CommitOracles) (p : String)
    (db0 : List CommitRow) (listing : List CommitInfo) :
    filterUnprocessedCommits
      (db0 ++ (filterUnprocessedCommits db0 p listing).map
        (fun c => mkCommitRow p c (commitSummary env c.commitHash))) p listing = [] := by
  apply List.eq_nil_iff_forall_not_mem.mpr
  intro c hc
  obtain ⟨hcl, hnot⟩ := (mem_filterUnprocessed _ p listing c).mp hc
  apply hnot
  rw [projectHashes_append, projectHashes_rows]
  by_cases hin : c.commitHash ∈ projectHashes db0 p
  · exact List.mem_append_left _ hin
  · exact List.mem_append_right _
      (List.mem_map.mpr ⟨c, (mem_filterUnprocessed db0 p listing c).mpr ⟨hcl, hin⟩, rfl⟩)

theorem projectHashes_nodup_after (env : CommitOracles) (p : String)
    (db0 : List CommitRow) (listing : List CommitInfo)
    (hdb : (projectHashes db0 p).Nodup)
    (hlist : (listing.map (fun c => c.commitHash)).Nodup) :
    (projectHashes (pollCommits env p db0 listing).2 p).Nodup := by
  rw [pollCommits_state, projectHashes_append, projectHashes_rows]
  rw [List.nodup_append]
  refine ⟨hdb, ?_, ?_⟩
  · exact hlist.sublist ((List.filter_sublist listing).map (fun c => c.commitHash))
  · intro a ha hamem
    obtain ⟨c, hcu, rfl⟩ := List.mem_map.mp hamem
    exact ((mem_filterUnprocessed db0 p listing c).mp hcu).2 ha

/-- C10: `summariesCommit` never rejects: its inner catch-all converts every
error into `"Error generating summary"` before `withRetry` inspects it, so
its retry branch never fires (no waits, exactly one attempt) and the `null`
branch of the `pollCommits` fan-out task is unreachable. -/
theorem claim_C10_summariesCommit_never_rejects (env : CommitOracles) (c : CommitInfo) :
    (summariesCommit env c.commitHash).result = .ok (commitSummary env c.commitHash)
    ∧ (summariesCommit env c.commitHash).delays = []
    ∧ (summariesCommit env c.commitHash).attempts = 1
    ∧ processCommitTask env c = some (c, commitSummary env c.commitHash) := by
  rw [summariesCommit_result]
  exact ⟨rfl, rfl, rfl, processCommitTask_eq env c⟩

/-- C4: every submitted commit produces a record that depends only on that
commit's own fetch/summarize behaviour (so one commit's failure never aborts
or alters its siblings); a failing fetch or summarization yields the sentinel
`"Error generating summary"`, while a successful fetch-and-summarize yields
the commit's own summarizer output. -/
theorem claim_C4_commit_fault_isolation (env : CommitOracles) (p : String)
    (db0 : List CommitRow) (listing : List CommitInfo) :
    ((pollCommits env p db0 listing).1 =
        (filterUnprocessedCommits db0 p listing).map
          (fun c => mkCommitRow p c (commitSummary env c.commitHash)))
    ∧ (∀ hash,
        ((∃ s, env.fetchDiff hash 0 = .err s) ∨
          (∃ d s, env.fetchDiff hash 0 = .ok d ∧ env.summarize hash 0 d = .err s)) →
        commitSummary env hash = "Error generating summary")
    ∧ (∀ hash d s, env.fetchDiff hash 0 = .ok d → d ≠ "" →
        env.summarize hash 0 d = .ok s → s ≠ "" →
        commitSummary env hash = s) := by
  refine ⟨pollCommits_rows env p db0 listing, ?_, ?_⟩
  · rintro hash (⟨s, hs⟩ | ⟨d, s, hd, hs⟩)
    · unfold commitSummary summariesCommitBody
      rw [hs]
    · unfold commitSummary summariesCommitBody
      rw [hd]
      by_cases hde : d = ""
      · simp [hde]
      · simp only [hde, if_false, hs]
  · intro hash d s hd hde hs hse
    unfold commitSummary summariesCommitBody
    rw [hd]
    simp only [hde, if_false, hs]
    simp [hse]

/-- Oracles for the C4 witness: the diff fetch fails with status 500 for the
commit hash "h1" and succeeds for every other hash; the summarizer succeeds. -/
def envC4 : CommitOracles :=
  ⟨fun hash _ => if hash = "h1" then .err 500 else .ok "diff text",
   fun _ _ _ => .ok "good summary"⟩

/-- Witness for C4: under `envC4` the failing commit "h1" gets the sentinel
summary while the sibling commit "h2" gets its own summarizer output. -/
theorem claim_C4_witness :
    commitSummary envC4 "h1" = "Error generating summary"
    ∧ commitSummary envC4 "h2" = "good summary" :=
  ⟨(claim_C4_commit_fault_isolation envC4 "p" [] []).2.1 "h1" (Or.inl ⟨500, by decide⟩),
   (claim_C4_commit_fault_isolation envC4 "p" [] []).2.2 "h2" "diff text" "good summary"
     (by decide) (by decide) (by decide) (by decide)⟩

/-- C3: with the upstream listing unchanged between two runs, the second run
of `pollCommits` filters out every already persisted hash, creates zero new
rows and leaves the store unchanged; the number of records for the project is
unchanged, and no two records for the project share a commit hash (assuming
they did not initially and the listing carries distinct hashes). -/
theorem claim_C3_pollCommits_idempotent (env env2 : CommitOracles) (p : String)
    (db0 : List CommitRow) (listing : List CommitInfo)
    (hdb : (projectHashes db0 p).Nodup)
    (hlist : (listing.map (fun c => c.commitHash)).Nodup) :
    (pollCommits env2 p (pollCommits env p db0 listing).2 listing).1 = []
    ∧ (pollCommits env2 p (pollCommits env p db0 listing).2 listing).2 =
        (pollCommits env p db0 listing).2
    ∧ (findCommitsByProject
          (pollCommits env2 p (pollCommits env p db0 listing).2 listing).2 p).length =
        (findCommitsByProject (pollCommits env p db0 listing).2 p).length
    ∧ (projectHashes (pollCommits env p db0 listing).2 p).Nodup := by
  have h2 : filterUnprocessedCommits (pollCommits env p db0 listing).2 p listing = [] := by
    rw [pollCommits_state]
    exact filterUnprocessed_after_poll env p db0 listing
  refine ⟨?_, ?_, ?_, projectHashes_nodup_after env p db0 listing hdb hlist⟩
  · rw [pollCommits_rows, h2]
    rfl
  · rw [pollCommits_state env2 p _ listing, h2]
    simp
  · rw [pollCommits_state env2 p _ listing, h2]
    simp

/-- Oracles for the C3 witness: every fetch and summarization succeeds. -/
def envC3 : CommitOracles := ⟨fun _ _ => .ok "d", fun _ _ _ => .ok "s"⟩

/-- Upstream listing for the C3 witness: two commits with distinct hashes. -/
def listingC3 : List CommitInfo :=
  [⟨"h1", "m1", "a1", "", "2024-01-02"⟩, ⟨"h2", "m2", "a2", "", "2024-01-01"⟩]

/-- Witness for C3: a concrete double run of `pollCommits` from an empty
store over the two-commit listing. -/
theorem claim_C3_witness :
    (pollCommits envC3 "p" (pollCommits envC3 "p" [] listingC3).2 listingC3).1 = []
    ∧ (pollCommits envC3 "p" (pollCommits envC3 "p" [] listingC3).2 listingC3).2 =
        (pollCommits envC3 "p" [] listingC3).2
    ∧ (findCommitsByProject
          (pollCommits envC3 "p" (pollCommits envC3 "p" [] listingC3).2 listingC3).2 "p").length =
        (findCommitsByProject (pollCommits envC3 "p" [] listingC3).2 "p").length
    ∧ (projectHashes (pollCommits envC3 "p" [] listingC3).2 "p").Nodup :=
  claim_C3_pollCommits_idempotent envC3 envC3 "p" [] listingC3 (by decide) (by decide)

/-- An error thrown during a repository load.  `rateLimited` records whether
`error.message.includes("rate limit exceeded")` holds; `tokenAdvice` marks
the user-facing error that `loadGithubRepo` constructs to recommend
providing an access token. -/
structure LoadError where
  rateLimited : Bool
  tokenAdvice : Bool
deriving DecidableEq

/-- The user-facing `"GitHub API rate limit exceeded. To increase your rate
limit, please provide a GitHub token..."` error thrown by `loadGithubRepo`
(github.ts lines 400-403); its message itself mentions the rate limit. -/
def tokenAdviceError : LoadError := ⟨true, true⟩

/-- Outcome of one attempt of the document load. -/
inductive LoadOutcome (T : Type) where
  | ok (v : T)
  | err (e : LoadError)
deriving DecidableEq

/-- The wait computed inside the loader's `retry` helper (github.ts line
360): `Math.min(1000 * Math.pow(2, attempt), 10000)`. -/
def loadRetryWait (attempt : Nat) : Nat := min (1000 * 2 ^ attempt) 10000

/-- The `for` loop of the `retry` helper inside `loadGithubRepo` (github.ts
lines 352-370).  `fuel` counts the remaining loop iterations (the loop runs
while `attempt <= maxAttempts`); if the loop were exhausted the TypeScript
function would return `undefined`, modelled as `none`.  The second component
collects the waits performed between attempts. -/
def retryGo {T : Type} (fn : Nat → LoadOutcome T) (maxAttempts : Nat) :
    Nat → Nat → Option (LoadOutcome T) × List Nat
  | _, 0 => (none, [])
  | attempt, fuel + 1 =>
    match fn attempt with
    | .ok v => (some (.ok v), [])
    | .err e =>
      if attempt = maxAttempts then (some (.err e), [])
      else if e.rateLimited then
        let rest := retryGo fn maxAttempts (attempt + 1) fuel
        (rest.1, loadRetryWait attempt :: rest.2)
      else (some (.err e), [])

/-- `retry(fn, maxAttempts)`: the loop starts at `attempt = 1`. -/
def retryLoad {T : Type} (fn : Nat → LoadOutcome T) (maxAttempts : Nat) :
    Option (LoadOutcome T) × List Nat :=
  retryGo fn maxAttempts 1 maxAttempts

/-- Shallow embedding of `loadGithubRepo` (github.ts lines 341-407): the
loader call is passed through `retry` with its default `maxAttempts = 3`;
the outer catch converts a rate-limited error into the user-facing
token-advice error and rethrows any other error unchanged. -/
def loadGithubRepo {T : Type} (fn : Nat → LoadOutcome T) :
    Option (LoadOutcome T) × List Nat :=
  let r := retryLoad fn 3
  match r.1 with
  | some (.err e) =>
    if e.rateLimited then (some (.err tokenAdviceError), r.2)
    else (some (.err e), r.2)
  | other => (other, r.2)

/-- Counterexample to C6 as stated: with a loader that always fails
rate-limited, the waits performed by `loadGithubRepo` are 2000ms then
4000ms — the first wait is `min(1000·2^1, 10000) = 2000ms`, not the claimed
1-second seed. -/
theorem claim_C6_counterexample :
    (loadGithubRepo (fun _ => (LoadOutcome.err ⟨true, false⟩ : LoadOutcome Unit))).2 =
      [2000, 4000]
    ∧ (loadGithubRepo (fun _ => (LoadOutcome.err ⟨true, false⟩ : LoadOutcome Unit))).2.head? ≠
      some 1000 := by
  decide

/-- C6 amended: on rate-limit errors `loadGithubRepo` retries the whole load
with exponential backoff whose waits are `min(1000·2^attempt, 10000)` — 2s
then 4s, capped at 10s — over at most 3 attempts, and only after the
attempts are exhausted surfaces the user-facing error recommending an access
token; a non-rate-limit error propagates without retry; a successful attempt
returns the loaded value. -/
theorem claim_C6_loadGithubRepo_backoff {T : Type} (fn : Nat → LoadOutcome T) :
    ((∀ n, ∃ e : LoadError, fn n = .err e ∧ e.rateLimited = true) →
        loadGithubRepo fn = (some (.err tokenAdviceError), [2000, 4000]))
    ∧ (∀ e : LoadError, fn 1 = .err e → e.rateLimited = false →
        loadGithubRepo fn = (some (.err e), []))
    ∧ (∀ v, fn 1 = .ok v → loadGithubRepo fn = (some (.ok v), []))
    ∧ (∀ a : Nat, loadRetryWait a ≤ 10000) := by
  refine ⟨?_, ?_, ?_, fun a => Nat.min_le_right _ _⟩
  · intro hall
    obtain ⟨e1, h1, hr1⟩ := hall 1
    obtain ⟨e2, h2, hr2⟩ := hall 2
    obtain ⟨e3, h3, hr3⟩ := hall 3
    unfold loadGithubRepo retryLoad
    simp [retryGo, h1, h2, h3, hr1, hr2, hr3, loadRetryWait]
  · intro e h1 hr
    unfold loadGithubRepo retryLoad
    simp [retryGo, h1, hr]
  · intro v h1
    unfold loadGithubRepo retryLoad
    simp [retryGo, h1]

/-- Witness for the amended C6: a concrete always-rate-limited loader is
attempted 3 times, waits 2000ms then 4000ms, and surfaces the user-facing
token-advice error. -/
theorem claim_C6_witness :
    loadGithubRepo (fun _ => (LoadOutcome.err ⟨true, false⟩ : LoadOutcome Unit)) =
      (some (.err tokenAdviceError), [2000, 4000]) :=
  (claim_C6_loadGithubRepo_backoff
      (fun _ => (LoadOutcome.err ⟨true, false⟩ : LoadOutcome Unit))).1
    (fun _ => ⟨⟨true, false⟩, rfl, rfl⟩)

/-- A document produced by the repository snapshot loader: the raw file
content (`doc.pageContent`) and the repo-relative path
(`doc.metadata.source`). -/
structure Doc where
  pageContent : String
  source : String
deriving DecidableEq

/-- External capabilities of the file embedding pipeline: the generative
model behind `summariseCode` (given the file path and the truncated content)
and the embedding model behind `generateEmbedding`. -/
structure EmbedOracles where
  summarizeFile : String → String → Attempt String
  embed : String → Attempt (List ℚ)

/-- Shallow embedding of `summariseCode` (gemini module, lines 50-68): the
content is truncated to its first 10000 characters before summarization, and
any error from the model is caught and replaced with the empty string. -/
def summariseCode (env : EmbedOracles) (doc : Doc) : String :=
  match env.summarizeFile doc.source (doc.pageContent.take 10000) with
  | .ok s => s
  | .err _ => ""

/-- One element of the array built by `generateEmbeddings` (github.ts lines
443-449): summary, embedding vector, raw source code
(`JSON.parse(JSON.stringify(doc.pageContent))`, identity on a string) and
file name. -/
structure EmbedEntry where
  summary : String
  embedding : List ℚ
  sourceCode : String
  fileName : String
deriving DecidableEq

/-- Shallow embedding of `generateEmbeddings` (github.ts lines 439-452): a
`Promise.all` join over the documents.  `summariseCode` never rejects, but a
rejection of any `generateEmbedding` call rejects the whole join; otherwise
the result has one entry per document, in input order. -/
def generateEmbeddings (env : EmbedOracles) : List Doc → Attempt (List EmbedEntry)
  | [] => .ok []
  | doc :: rest =>
    match env.embed (summariseCode env doc) with
    | .err s => .err s
    | .ok vec =>
      match generateEmbeddings env rest with
      | .err s => .err s
      | .ok entries =>
        .ok (⟨summariseCode env doc, vec, doc.pageContent, doc.source⟩ :: entries)

/-- The embedding vector obtained for a document when the embedding call
succeeds. -/
def embedVec (env : EmbedOracles) (doc : Doc) : List ℚ :=
  match env.embed (summariseCode env doc) with
  | .ok v => v
  | .err _ => []

/-- A `SourceCodeEmbedding` row of the store.  `summaryEmbedding` is `none`
between the `create` call — which does not set the vector — and the raw SQL
`UPDATE` that sets it. -/
structure SourceCodeEmbeddingRow where
  id : Nat
  fileName : String
  sourceCode : String
  summary : String
  summaryEmbedding : Option (List ℚ)
  projectId : String
deriving DecidableEq

/-- The per-entry persistence loop of `indexGithubRepo` (github.ts lines
416-436): for each entry, `db.sourceCodeEmbedding.create` inserts a row
without the vector, then `db.$executeRaw UPDATE ... SET "summaryEmbedding"`
sets it on the row just created.  The result lists every store state reached
after each of the two steps, in order.  (The `if (!embedding) return` guard
tests the entry object itself, which is never null, so it never skips.) -/
def persistEntries (p : String) : List EmbedEntry → List SourceCodeEmbeddingRow → Nat →
    List (List SourceCodeEmbeddingRow)
  | [], _, _ => []
  | e :: rest, db, nid =>
    let afterCreate := db ++ [⟨nid, e.fileName, e.sourceCode, e.summary, none, p⟩]
    let afterUpdate := afterCreate.map (fun r =>
      if r.id = nid then ⟨r.id, r.fileName, r.sourceCode, r.summary, some e.embedding, r.projectId⟩
      else r)
    afterCreate :: afterUpdate :: persistEntries p rest afterUpdate (nid + 1)

/-- The fully persisted rows for a list of entries, with ids assigned from
`nid` upward: what the two-step loop leaves appended once every update has
run. -/
def persistedRows (p : String) : List EmbedEntry → Nat → List SourceCodeEmbeddingRow
  | [], _ => []
  | e :: rest, nid =>
    ⟨nid, e.fileName, e.sourceCode, e.summary, some e.embedding, p⟩ ::
      persistedRows p rest (nid + 1)

/-- Shallow embedding of `indexGithubRepo` (github.ts lines 409-437): await
the embeddings of all loaded docs (a rejection there aborts the whole call
before any persistence happens), then persist each entry with the two-step
create/update.  On success the result is the initial store followed by every
intermediate store state reached during persistence. -/
def indexGithubRepo (env : EmbedOracles) (p : String) (docs : List Doc)
    (db : List SourceCodeEmbeddingRow) (nextId : Nat) :
    Attempt (List (List SourceCodeEmbeddingRow)) :=
  match generateEmbeddings env docs with
  | .err s => .err s
  | .ok entries => .ok (db :: persistEntries p entries db nextId)

theorem persistEntries_getLast (p : String) (entries : List EmbedEntry) :
    ∀ (db : List SourceCodeEmbeddingRow) (nid : Nat), (∀ r ∈ db, r.id < nid) →
      (persistEntries p entries db nid).getLastD db = db ++ persistedRows p entries nid := by
  induction entries with
  | nil =>
    intro db nid _
    simp [persistEntries, persistedRows]
  | cons e rest ih =>
    intro db nid hids
    have hupd : (db ++ [(⟨nid, e.fileName, e.sourceCode, e.summary, none, p⟩ :
        SourceCodeEmbeddingRow)]).map
        (fun (r : SourceCodeEmbeddingRow) =>
          if r.id = nid then
            ⟨r.id, r.fileName, r.sourceCode, r.summary, some e.embedding, r.projectId⟩
          else r) =
        db ++ [(⟨nid, e.fileName, e.sourceCode, e.summary, some e.embedding, p⟩ :
          SourceCodeEmbeddingRow)] := by
      rw [List.map_append]
      congr 1
      · conv_rhs => rw [← List.map_id db]
        apply List.map_congr_left
        intro r hr
        have hne : r.id ≠ nid := Nat.ne_of_lt (hids r hr)
        simp [hne]
      · simp
    have hids2 : ∀ r ∈ db ++
        [(⟨nid, e.fileName, e.sourceCode, e.summary, some e.embedding, p⟩ :
          SourceCodeEmbeddingRow)], r.id < nid + 1 := by
      intro r hr
      rcases List.mem_append.mp hr with hmem | hmem
      · exact Nat.lt_succ_of_lt (hids r hmem)
      · rcases List.mem_singleton.mp hmem with rfl
        exact Nat.lt_succ_self nid
    show (List.getLastD (_ :: _ :: persistEntries p rest _ (nid + 1)) db) = _
    rw [List.getLastD_cons, List.getLastD_cons, hupd, ih _ (nid + 1) hids2]
    simp [persistedRows, List.append_assoc]

theorem generateEmbeddings_ok (env : EmbedOracles) (docs : List Doc)
    (h : ∀ doc ∈ docs, ∃ v, env.embed (summariseCode env doc) = .ok v) :
    generateEmbeddings env docs = .ok (docs.map (fun doc =>
      ⟨summariseCode env doc, embedVec env doc, doc.pageContent, doc.source⟩)) := by
  induction docs with
  | nil => rfl
  | cons d rest ih =>
    obtain ⟨v, hv⟩ := h d (by simp)
    have hrest := ih (fun doc hd => h doc (by simp [hd]))
    simp only [generateEmbeddings, hv, hrest, List.map_cons]
    simp [embedVec, hv]

theorem generateEmbeddings_err (env : EmbedOracles) (docs : List Doc)
    (h : ∃ doc ∈ docs, ∃ s, env.embed (summariseCode env doc) = .err s) :
    ∃ s, generateEmbeddings env docs = .err s := by
  induction docs with
  | nil =>
    obtain ⟨d, hd, _⟩ := h
    cases hd
  | cons d rest ih =>
    cases he : env.embed (summariseCode env d) with
    | err s => exact ⟨s, by simp [generateEmbeddings, he]⟩
    | ok v =>
      have hrest : ∃ doc ∈ rest, ∃ s, env.embed (summariseCode env doc) = .err s := by
        obtain ⟨doc, hdoc, s, hs⟩ := h
        rcases List.mem_cons.mp hdoc with rfl | hmem
        · rw [he] at hs
          cases hs
        · exact ⟨doc, hmem, s, hs⟩
      obtain ⟨s, hs⟩ := ih hrest
      refine ⟨s, ?_⟩
      simp [generateEmbeddings, he, hs]

theorem mem_persistedRows (p : String) (entries : List EmbedEntry) :
    ∀ (nid : Nat) (r : SourceCodeEmbeddingRow), r ∈ persistedRows p entries nid →
      ∃ e ∈ entries,
        r.summary = e.summary ∧ r.sourceCode = e.sourceCode ∧ r.fileName = e.fileName ∧
        r.summaryEmbedding = some e.embedding ∧ r.projectId = p := by
  induction entries with
  | nil =>
    intro nid r hr
    cases hr
  | cons e rest ih =>
    intro nid r hr
    rcases List.mem_cons.mp hr with rfl | hmem
    · exact ⟨e, by simp, rfl, rfl, rfl, rfl, rfl⟩
    · obtain ⟨e2, he2, hprops⟩ := ih (nid + 1) r hmem
      exact ⟨e2, List.mem_cons_of_mem e he2, hprops⟩

theorem persistedRows_length (p : String) (entries : List EmbedEntry) :
    ∀ nid : Nat, (persistedRows p entries nid).length = entries.length := by
  induction entries with
  | nil => intro nid; rfl
  | cons e rest ih =>
    intro nid
    simp [persistedRows, ih (nid + 1)]

/-- Counterexample to C5 as stated: (i) with a summarizer that always errors
and an embedding model that succeeds, the file's summary is the empty string
but a `SourceCodeEmbedding` record IS persisted for it (the claim says none
may be); (ii) with an embedding model that fails on the first file's
summary, the whole `Promise.all` join of `generateEmbeddings` rejects, so
the second, healthy file is not summarized-and-persisted either (the claim
says one file's failure never prevents the remaining files). -/
theorem claim_C5_counterexample :
    (indexGithubRepo ⟨fun _ _ => .err 1, fun _ => .ok [1]⟩ "p" [⟨"code a", "a.ts"⟩] [] 0 =
      .ok [[], [⟨0, "a.ts", "code a", "", none, "p"⟩],
           [⟨0, "a.ts", "code a", "", some [1], "p"⟩]])
    ∧ (indexGithubRepo ⟨fun src _ => .ok src, fun s => if s = "a.ts" then .err 2 else .ok [1]⟩
        "p" [⟨"code a", "a.ts"⟩, ⟨"code b", "b.ts"⟩] [] 0 = .err 2) := by
  decide

/-- C5 amended: a file whose summarization errors contributes the empty
string as its summary, yet is still embedded (on the empty summary) and
persisted when its embedding call succeeds; a failure of the embedding call
for any single file rejects the whole `Promise.all` join of
`generateEmbeddings`, so no file of that batch is persisted; when every
embedding call succeeds the final store appends exactly the fully populated
rows of all files, in order.  (The settled fault-isolating join guards only
the persistence step, not summarize-and-embed.) -/
theorem claim_C5_embedding_pipeline (env : EmbedOracles) (p : String)
    (docs : List Doc) (db : List SourceCodeEmbeddingRow) (nid : Nat) :
    (∀ doc : Doc,
        (∃ s, env.summarizeFile doc.source (doc.pageContent.take 10000) = .err s) →
        summariseCode env doc = "")
    ∧ ((∃ doc ∈ docs, ∃ s, env.embed (summariseCode env doc) = .err s) →
        ∃ s, indexGithubRepo env p docs db nid = .err s)
    ∧ ((∀ doc ∈ docs, ∃ v, env.embed (summariseCode env doc) = .ok v) →
        (∀ r ∈ db, r.id < nid) →
        ∃ states, indexGithubRepo env p docs db nid = .ok states ∧
          states.getLastD db = db ++ persistedRows p (docs.map (fun doc =>
            ⟨summariseCode env doc, embedVec env doc, doc.pageContent, doc.source⟩)) nid) := by
  refine ⟨?_, ?_, ?_⟩
  · intro doc hex
    obtain ⟨s, hs⟩ := hex
    unfold summariseCode
    rw [hs]
  · intro hex
    obtain ⟨s, hs⟩ := generateEmbeddings_err env docs hex
    refine ⟨s, ?_⟩
    unfold indexGithubRepo
    rw [hs]
  · intro hok hids
    refine ⟨db :: persistEntries p (docs.map (fun doc =>
      ⟨summariseCode env doc, embedVec env doc, doc.pageContent, doc.source⟩)) db nid, ?_, ?_⟩
    · unfold indexGithubRepo
      rw [generateEmbeddings_ok env docs hok]
    · rw [List.getLastD_cons]
      exact persistEntries_getLast p _ db nid hids

/-- Witness for the amended C5: a concrete run whose summarizer always
errors; the file gets the empty summary and is nevertheless persisted. -/
theorem claim_C5_witness :
    summariseCode ⟨fun _ _ => .err 3, fun _ => .ok [5]⟩ ⟨"c", "f.ts"⟩ = ""
    ∧ ∃ states,
        indexGithubRepo ⟨fun _ _ => .err 3, fun _ => .ok [5]⟩ "p" [⟨"c", "f.ts"⟩] [] 0 =
          .ok states ∧
        states.getLastD [] = [] ++ persistedRows "p" ([(⟨"c", "f.ts"⟩ : Doc)].map (fun doc =>
          ⟨summariseCode ⟨fun _ _ => .err 3, fun _ => .ok [5]⟩ doc,
           embedVec ⟨fun _ _ => .err 3, fun _ => .ok [5]⟩ doc,
           doc.pageContent, doc.source⟩)) 0 :=
  ⟨(claim_C5_embedding_pipeline ⟨fun _ _ => .err 3, fun _ => .ok [5]⟩ "p"
      [⟨"c", "f.ts"⟩] [] 0).1 ⟨"c", "f.ts"⟩ ⟨3, rfl⟩,
   (claim_C5_embedding_pipeline ⟨fun _ _ => .err 3, fun _ => .ok [5]⟩ "p"
      [⟨"c", "f.ts"⟩] [] 0).2.2 (fun _ _ => ⟨[5], rfl⟩)
      (fun r hr => absurd hr (List.not_mem_nil r))⟩

/-- Counterexample to C7 as stated: persistence is not a single atomic
record creation — running the pipeline on one file reaches an intermediate
store state whose record holds the summary, source code and path but has
`summaryEmbedding = none`. -/
theorem claim_C7_counterexample :
    (indexGithubRepo ⟨fun _ _ => .ok "sum", fun _ => .ok [2]⟩ "p" [⟨"code", "f.ts"⟩] [] 0 =
      .ok [[], [⟨0, "f.ts", "code", "sum", none, "p"⟩],
           [⟨0, "f.ts", "code", "sum", some [2], "p"⟩]])
    ∧ (⟨0, "f.ts", "code", "sum", none, "p"⟩ : SourceCodeEmbeddingRow).summaryEmbedding = none
    ∧ (⟨0, "f.ts", "code", "sum", none, "p"⟩ : SourceCodeEmbeddingRow).summary = "sum" := by
  decide

/-- C7 amended: the persistence of a file's data is a two-step write — a
record creation without the vector, then a raw update that sets it: the
state right after each create holds the file's summary, source code and path
with no embedding vector, and after all updates have run the store has
appended exactly one fully populated row per entry, each holding its
summary, source code, path, vector and project id. -/
theorem claim_C7_two_step_persistence (p : String) (entries : List EmbedEntry)
    (db : List SourceCodeEmbeddingRow) (nid : Nat) (hids : ∀ r ∈ db, r.id < nid) :
    ((persistEntries p entries db nid).getLastD db = db ++ persistedRows p entries nid)
    ∧ (∀ r ∈ persistedRows p entries nid, ∃ e ∈ entries,
        r.summary = e.summary ∧ r.sourceCode = e.sourceCode ∧ r.fileName = e.fileName ∧
        r.summaryEmbedding = some e.embedding ∧ r.projectId = p)
    ∧ ((persistedRows p entries nid).length = entries.length)
    ∧ (∀ e rest, entries = e :: rest →
        (persistEntries p entries db nid).head? =
          some (db ++ [⟨nid, e.fileName, e.sourceCode, e.summary, none, p⟩])) := by
  refine ⟨persistEntries_getLast p entries db nid hids,
          fun r hr => mem_persistedRows p entries nid r hr,
          persistedRows_length p entries nid, ?_⟩
  intro e rest hent
  subst hent
  rfl

/-- Witness for the amended C7: a concrete one-entry persistence run. -/
theorem claim_C7_witness :
    ((persistEntries "p" [⟨"sum", [2], "code", "f.ts"⟩] [] 0).getLastD [] =
      [] ++ persistedRows "p" [⟨"sum", [2], "code", "f.ts"⟩] 0)
    ∧ (∀ r ∈ persistedRows "p" [(⟨"sum", [2], "code", "f.ts"⟩ : EmbedEntry)] 0,
        ∃ e ∈ [(⟨"sum", [2], "code", "f.ts"⟩ : EmbedEntry)],
        r.summary = e.summary ∧ r.sourceCode = e.sourceCode ∧ r.fileName = e.fileName ∧
        r.summaryEmbedding = some e.embedding ∧ r.projectId = "p")
    ∧ ((persistedRows "p" [(⟨"sum", [2], "code", "f.ts"⟩ : EmbedEntry)] 0).length =
        [(⟨"sum", [2], "code", "f.ts"⟩ : EmbedEntry)].length)
    ∧ (∀ e rest, [(⟨"sum", [2], "code", "f.ts"⟩ : EmbedEntry)] = e :: rest →
        (persistEntries "p" [⟨"sum", [2], "code", "f.ts"⟩] [] 0).head? =
          some ([] ++ [⟨0, e.fileName, e.sourceCode, e.summary, none, "p"⟩])) :=
  claim_C7_two_step_persistence "p" [⟨"sum", [2], "code", "f.ts"⟩] [] 0
    (fun r hr => absurd hr (List.not_mem_nil r))

/-- `SIMILARITY_THRESHOLD = 0.5` (page.tsx line 77). -/
def SIMILARITY_THRESHOLD : ℚ := 1 / 2

/-- `MAX_RESULTS = 10` (page.tsx line 78). -/
def MAX_RESULTS : Nat := 10

/-- The similarity computed inside the SQL query of `performVectorSearch`
(page.tsx lines 134-146): `1 - (summaryEmbedding <dist> queryVector)`, with
the storage engine's vector-distance operator modelled abstractly as
`cosDist`.  A row whose `summaryEmbedding` is still NULL yields NULL
(`none`): in SQL a NULL similarity never passes the `WHERE` comparison. -/
def rowSimilarity (cosDist : List ℚ → List ℚ → ℚ) (q : List ℚ)
    (r : SourceCodeEmbeddingRow) : Option ℚ :=
  r.summaryEmbedding.map (fun v => 1 - cosDist v q)

/-- The `WHERE` clause of the query: scoped to the project id and similarity
strictly greater than the threshold. -/
def rowMatches (cosDist : List ℚ → List ℚ → ℚ) (q : List ℚ) (projectId : String)
    (r : SourceCodeEmbeddingRow) : Bool :=
  decide (r.projectId = projectId) &&
    (match rowSimilarity cosDist q r with
     | some s => decide (s > SIMILARITY_THRESHOLD)
     | none => false)

/-- The `ORDER BY` sort key of a row (its similarity; matched rows always
have one). -/
def simD (cosDist : List ℚ → List ℚ → ℚ) (q : List ℚ) (r : SourceCodeEmbeddingRow) : ℚ :=
  (rowSimilarity cosDist q r).getD 0

/-- Shallow embedding of `performVectorSearch` (page.tsx lines 127-151):
`SELECT ... WHERE similarity > threshold AND projectId = p ORDER BY
similarity DESC LIMIT 10`.  The store travels through unchanged — the query
only reads. -/
def performVectorSearch (cosDist : List ℚ → List ℚ → ℚ)
    (db : List SourceCodeEmbeddingRow) (q : List ℚ) (projectId : String) :
    List SourceCodeEmbeddingRow × List SourceCodeEmbeddingRow :=
  let kept := db.filter (rowMatches cosDist q projectId)
  let sorted := kept.mergeSort (fun a b => decide (simD cosDist q b ≤ simD cosDist q a))
  (sorted.take MAX_RESULTS, db)

theorem rowMatches_iff (cosDist : List ℚ → List ℚ → ℚ) (q : List ℚ) (pid : String)
    (r : SourceCodeEmbeddingRow) :
    rowMatches cosDist q pid r = true ↔
      r.projectId = pid ∧
        ∃ s, rowSimilarity cosDist q r = some s ∧ s > SIMILARITY_THRESHOLD := by
  unfold rowMatches
  cases h : rowSimilarity cosDist q r with
  | none => simp [h]
  | some s => simp [h]

/-- C2: the vector search returns only stored records scoped to the project
whose similarity is strictly above the 0.5 threshold, in descending
similarity order, at most 10 of them — and exactly the matching records
whenever at most 10 match; the stored state is not mutated. -/
theorem claim_C2_vector_search (cosDist : List ℚ → List ℚ → ℚ)
    (db : List SourceCodeEmbeddingRow) (q : List ℚ) (pid : String) :
    ((performVectorSearch cosDist db q pid).2 = db)
    ∧ ((performVectorSearch cosDist db q pid).1.length ≤ MAX_RESULTS)
    ∧ (∀ r ∈ (performVectorSearch cosDist db q pid).1,
        r ∈ db ∧ r.projectId = pid ∧
          ∃ s, rowSimilarity cosDist q r = some s ∧ s > SIMILARITY_THRESHOLD)
    ∧ ((performVectorSearch cosDist db q pid).1.Pairwise
        (fun a b => simD cosDist q b ≤ simD cosDist q a))
    ∧ ((db.filter (rowMatches cosDist q pid)).length ≤ MAX_RESULTS →
        (performVectorSearch cosDist db q pid).1.Perm
          (db.filter (rowMatches cosDist q pid))) := by
  refine ⟨rfl, List.length_take_le _ _, ?_, ?_, ?_⟩
  · intro r hr
    have hsorted : r ∈ (db.filter (rowMatches cosDist q pid)).mergeSort
        (fun a b => decide (simD cosDist q b ≤ simD cosDist q a)) :=
      (List.take_sublist _ _).mem hr
    have hkept : r ∈ db.filter (rowMatches cosDist q pid) :=
      List.mem_mergeSort.mp hsorted
    obtain ⟨hmem, hmatch⟩ := List.mem_filter.mp hkept
    exact ⟨hmem, (rowMatches_iff cosDist q pid r).mp hmatch⟩
  · have hp : ((db.filter (rowMatches cosDist q pid)).mergeSort
        (fun a b => decide (simD cosDist q b ≤ simD cosDist q a))).Pairwise
        (fun a b => decide (simD cosDist q b ≤ simD cosDist q a) = true) := by
      apply List.sorted_mergeSort
      · intro a b c hab hbc
        simp only [decide_eq_true_iff] at *
        exact le_trans hbc hab
      · intro a b
        rcases le_total (simD cosDist q b) (simD cosDist q a) with h | h
        · simp [h]
        · simp [h]
    have := hp.sublist (List.take_sublist MAX_RESULTS _)
    exact this.imp (fun h => by simpa using h)
  · intro hlen
    have hle : ((db.filter (rowMatches cosDist q pid)).mergeSort
        (fun a b => decide (simD cosDist q b ≤ simD cosDist q a))).length ≤ MAX_RESULTS := by
      rw [List.length_mergeSort]
      exact hlen
    show (((db.filter (rowMatches cosDist q pid)).mergeSort
        (fun a b => decide (simD cosDist q b ≤ simD cosDist q a))).take MAX_RESULTS).Perm _
    rw [List.take_of_length_le hle]
    exact List.mergeSort_perm _ _

/-- Concrete store for the C2 witness: five embedded rows for project "p"
whose similarities to the query under `cosW` are 0.9, 0.5, 0.3, 0.6, 0.2. -/
def dbW : List SourceCodeEmbeddingRow :=
  [⟨1, "e1", "", "", some [9/10], "p"⟩,
   ⟨2, "e2", "", "", some [1/2], "p"⟩,
   ⟨3, "e3", "", "", some [3/10], "p"⟩,
   ⟨4, "e4", "", "", some [6/10], "p"⟩,
   ⟨5, "e5", "", "", some [1/5], "p"⟩]

/-- Distance oracle for the C2 witness: distance `1 - v₀`, so the similarity
of a stored row is the first component of its vector. -/
def cosW : List ℚ → List ℚ → ℚ := fun v _ => 1 - v.getD 0 0

/-- Witness for C2: on the concrete five-row store the search result is a
permutation of exactly the rows whose similarity is strictly above 0.5. -/
theorem claim_C2_witness :
    (performVectorSearch cosW dbW [] "p").1.Perm (dbW.filter (rowMatches cosW [] "p")) :=
  (claim_C2_vector_search cosW dbW [] "p").2.2.2.2
    ((List.length_filter_le _ dbW).trans (by decide))

/-- One event observed on the `createStreamableValue` handle during
`askQuestion`. -/
inductive StreamEvent where
  | update (delta : String)
  | done
  | error
deriving DecidableEq

/-- The model's streaming capability as seen by the consuming loop of
`askQuestion`: the deltas the `for await` iteration yields, and whether the
iteration ends by throwing instead of completing normally. -/
structure TextStream where
  deltas : List String
  throwsAtEnd : Bool
deriving DecidableEq

/-- The async IIFE of `askQuestion` (page.tsx lines 198-210): forward each
delta with `stream.update`, then call `stream.done()`; any throw — including
one raised after deltas were already delivered — is caught and signalled
with `stream.error`. -/
def streamEvents : List String → Bool → List StreamEvent
  | [], true => [.error]
  | [], false => [.done]
  | d :: ds, t => .update d :: streamEvents ds t

/-- All events the caller observes on the stream handle for one run. -/
def askQuestionStream (ts : TextStream) : List StreamEvent :=
  streamEvents ts.deltas ts.throwsAtEnd

theorem streamEvents_eq (ds : List String) (t : Bool) :
    streamEvents ds t =
      ds.map StreamEvent.update ++ [if t then StreamEvent.error else StreamEvent.done] := by
  induction ds with
  | nil => cases t <;> rfl
  | cons d rest ih => simp [streamEvents, ih]

/-- C8: the caller observes every emitted chunk, in order, followed by
exactly one terminal event — `error` when the capability failed (even after
chunks were delivered), `done` when it completed — so error termination and
normal completion are always distinguishable and no truncation is ever
reported as success. -/
theorem claim_C8_stream_integrity (ts : TextStream) :
    (askQuestionStream ts =
      ts.deltas.map StreamEvent.update ++
        [if ts.throwsAtEnd then StreamEvent.error else StreamEvent.done])
    ∧ (ts.throwsAtEnd = true →
        askQuestionStream ts = ts.deltas.map StreamEvent.update ++ [StreamEvent.error])
    ∧ (ts.throwsAtEnd = false →
        askQuestionStream ts = ts.deltas.map StreamEvent.update ++ [StreamEvent.done])
    ∧ (StreamEvent.done ∈ askQuestionStream ts ↔ ts.throwsAtEnd = false)
    ∧ (StreamEvent.error ∈ askQuestionStream ts ↔ ts.throwsAtEnd = true) := by
  unfold askQuestionStream
  rw [streamEvents_eq]
  refine ⟨rfl, ?_, ?_, ?_, ?_⟩
  · intro h
    rw [h]
    simp
  · intro h
    rw [h]
    simp
  · cases h : ts.throwsAtEnd <;> simp
  · cases h : ts.throwsAtEnd <;> simp

/-- Witness for C8: the stream that emits "Hel", "lo, ", " world" and then
fails is observed as the three chunks in order followed by the terminal
error event. -/
theorem claim_C8_witness :
    askQuestionStream ⟨["Hel", "lo, ", " world"], true⟩ =
      [StreamEvent.update "Hel", StreamEvent.update "lo, ", StreamEvent.update " world",
       StreamEvent.error] :=
  (claim_C8_stream_integrity ⟨["Hel", "lo, ", " world"], true⟩).2.1 rfl

/-- `const MAX_CONCURRENT = 5` (github.ts line 133). -/
def MAX_CONCURRENT : Nat := 5

/-- Modelled from the spec: the Concurrency Limiter itself — the external
`p-limit` package instantiated as `limit = pLimit(MAX_CONCURRENT)` at
github.ts line 134 — is not part of the repository sources, so its state is
modelled from the spec's contract (§4.2): operations run immediately while a
slot is free, otherwise queue in submission order and are admitted from the
queue head as slots free; completed operations are recorded and never
dropped. -/
structure LimiterState where
  running : List Nat
  queue : List Nat
  completed : List Nat
deriving DecidableEq

/-- An observable scheduling event: a task is submitted, or a running task
finishes. -/
inductive LimiterEvent where
  | submit (id : Nat)
  | finish (id : Nat)
deriving DecidableEq

/-- Modelled from the spec: one step of the limiter.  `submit` starts the
task when fewer than `n` are running and queues it otherwise; `finish`
removes a running task and admits the head of the queue if one waits.  A
`finish` for a task that is not running is ignored. -/
def limiterStep (n : Nat) (s : LimiterState) : LimiterEvent → LimiterState
  | .submit id =>
    if s.running.length < n then ⟨s.running ++ [id], s.queue, s.completed⟩
    else ⟨s.running, s.queue ++ [id], s.completed⟩
  | .finish id =>
    if id ∈ s.running then
      match s.queue with
      | [] => ⟨s.running.erase id, [], s.completed ++ [id]⟩
      | q :: qs => ⟨s.running.erase id ++ [q], qs, s.completed ++ [id]⟩
    else s

/-- The limiter state after a sequence of events, from a given start state. -/
def limiterRun (n : Nat) (s0 : LimiterState) (events : List LimiterEvent) : LimiterState :=
  events.foldl (limiterStep n) s0

/-- The tasks a state accounts for: running, queued or completed. -/
def limiterIds (s : LimiterState) : List Nat :=
  s.running ++ s.queue ++ s.completed

/-- The ids submitted by a sequence of events. -/
def submittedIds (events : List LimiterEvent) : List Nat :=
  events.filterMap (fun e => match e with | .submit id => some id | .finish _ => none)

theorem limiterStep_running_le (n : Nat) (s : LimiterState) (e : LimiterEvent)
    (h : s.running.length ≤ n) : (limiterStep n s e).running.length ≤ n := by
  cases e with
  | submit id =>
    unfold limiterStep
    by_cases hlt : s.running.length < n
    · simp [hlt]
      omega
    · simp [hlt]
      exact h
  | finish id =>
    unfold limiterStep
    by_cases hmem : id ∈ s.running
    · have hlen : (s.running.erase id).length = s.running.length - 1 :=
        List.length_erase_of_mem hmem
      have hpos : 0 < s.running.length :=
        List.length_pos_of_mem hmem
      cases hq : s.queue with
      | nil =>
        simp [hmem, hq, hlen]
        omega
      | cons q qs =>
        simp [hmem, hq, hlen]
        omega
    · simp [hmem]
      exact h

theorem limiterRun_running_le (n : Nat) (events : List LimiterEvent) :
    ∀ s0 : LimiterState, s0.running.length ≤ n →
      (limiterRun n s0 events).running.length ≤ n := by
  induction events with
  | nil => intro s0 h; exact h
  | cons e rest ih =>
    intro s0 h
    exact ih (limiterStep n s0 e) (limiterStep_running_le n s0 e h)

theorem limiterStep_ids_perm (n : Nat) (s : LimiterState) (e : LimiterEvent) :
    (limiterIds (limiterStep n s e)).Perm
      (limiterIds s ++ submittedIds [e]) := by
  cases e with
  | submit id =>
    unfold limiterStep limiterIds submittedIds
    rw [List.perm_iff_count]
    intro a
    by_cases hlt : s.running.length < n
    · by_cases ha : id = a
      · simp [hlt, List.filterMap, List.count_cons, List.count_append, ha]
        omega
      · simp [hlt, List.filterMap, List.count_cons, List.count_append, ha]
    · by_cases ha : id = a
      · simp [hlt, List.filterMap, List.count_cons, List.count_append, ha]
      · simp [hlt, List.filterMap, List.count_cons, List.count_append, ha]
  | finish id =>
    unfold limiterStep limiterIds submittedIds
    rw [List.perm_iff_count]
    intro a
    by_cases hmem : id ∈ s.running
    · have hcount : 0 < s.running.count id := List.count_pos_iff.mpr hmem
      cases hq : s.queue with
      | nil =>
        by_cases ha : id = a
        · subst ha
          simp [hmem, hq, List.count_erase, List.filterMap, List.count_cons,
            List.count_append]
          omega
        · simp [hmem, hq, List.count_erase, List.filterMap, List.count_cons,
            List.count_append, ha]
      | cons q qs =>
        by_cases ha : id = a
        · subst ha
          simp [hmem, hq, List.count_erase, List.filterMap, List.count_cons,
            List.count_append]
          omega
        · simp [hmem, hq, List.count_erase, List.filterMap, List.count_cons,
            List.count_append, ha]
    · simp [hmem, List.filterMap]

theorem limiterRun_ids_perm (n : Nat) (events : List LimiterEvent) :
    ∀ s0 : LimiterState,
      (limiterIds (limiterRun n s0 events)).Perm (limiterIds s0 ++ submittedIds events) := by
  induction events with
  | nil =>
    intro s0
    simp [limiterRun, submittedIds, List.filterMap]
  | cons e rest ih =>
    intro s0
    have hstep := limiterStep_ids_perm n s0 e
    have hrec := ih (limiterStep n s0 e)
    have : (limiterIds (limiterStep n s0 e) ++ submittedIds rest).Perm
        ((limiterIds s0 ++ submittedIds [e]) ++ submittedIds rest) :=
      hstep.append_right _
    refine (hrec.trans this).trans ?_
    rw [List.append_assoc]
    have hsub : submittedIds [e] ++ submittedIds rest = submittedIds (e :: rest) := by
      cases e <;> simp [submittedIds, List.filterMap]
    rw [hsub]

/-- C9 (spec-modelled limiter): from the idle state, after every prefix of
any event sequence at most `MAX_CONCURRENT = 5` operations are running — the
ceiling holds at every instant; no submitted operation is ever dropped
(every submitted id stays accounted as running, queued or completed);
operations are admitted from the queue head only, and excess submissions
join the queue tail, so admission follows FIFO submission order. -/
theorem claim_C9_concurrency_limiter (events : List LimiterEvent) :
    (∀ pre suf, events = pre ++ suf →
        (limiterRun MAX_CONCURRENT ⟨[], [], []⟩ pre).running.length ≤ MAX_CONCURRENT)
    ∧ (limiterIds (limiterRun MAX_CONCURRENT ⟨[], [], []⟩ events)).Perm
        (submittedIds events)
    ∧ (∀ (s : LimiterState) (id q : Nat) (qs : List Nat),
        s.queue = q :: qs → id ∈ s.running →
        limiterStep MAX_CONCURRENT s (.finish id) =
          ⟨s.running.erase id ++ [q], qs, s.completed ++ [id]⟩)
    ∧ (∀ (s : LimiterState) (id : Nat), ¬s.running.length < MAX_CONCURRENT →
        limiterStep MAX_CONCURRENT s (.submit id) =
          ⟨s.running, s.queue ++ [id], s.completed⟩) := by
  refine ⟨?_, ?_, ?_, ?_⟩
  · intro pre _ _
    exact limiterRun_running_le MAX_CONCURRENT pre ⟨[], [], []⟩ (by simp)
  · have hperm := limiterRun_ids_perm MAX_CONCURRENT events ⟨[], [], []⟩
    simpa [limiterIds] using hperm
  · intro s id q qs hq hmem
    unfold limiterStep
    simp [hmem, hq]
  · intro s id hge
    unfold limiterStep
    simp [hge]

/-- The 20 task submissions of the C9 witness. -/
def eventsW : List LimiterEvent := (List.range 20).map LimiterEvent.submit

/-- Witness for C9: after 20 concrete submissions at most 5 tasks run and
every submitted task is still accounted for. -/
theorem claim_C9_witness :
    (limiterRun MAX_CONCURRENT ⟨[], [], []⟩ eventsW).running.length ≤ MAX_CONCURRENT
    ∧ (limiterIds (limiterRun MAX_CONCURRENT ⟨[], [], []⟩ eventsW)).Perm
        (submittedIds eventsW) :=
  ⟨(claim_C9_concurrency_limiter eventsW).1 eventsW [] (by simp),
   (claim_C9_concurrency_limiter eventsW).2.1⟩

end Codojo
